import Mathlib

/-!
Verification of the `no-base-to-string` rule's core classifier
(`collectToStringCertainty`) from
`src/packages/eslint-plugin/src/rules/no-base-to-string.ts`.

The classifier receives a TypeScript type handle and a configuration and
returns a four-valued verdict describing how useful the type's default
stringification is.  We embed the queries the source makes on a `ts.Type`
(`getPropertyOfType('toString')` / `getDeclarations()`, `getCallSignatures()`,
boolean type flags, `getTypeName`, `isIntersection()` / `isUnion()` /
`.types`) as fields of an algebraic datatype, and translate the body of
`collectToStringCertainty` line by line.
-/

namespace NoBaseToString

/-- The `Usefulness` enum of the source (lines 7-12). -/
inductive Usefulness : Type where
  | Always
  | Never
  | Sometimes
  | Function
deriving DecidableEq, Repr

/-- One declaration site of a `toString` member symbol: the source inspects
`declaration.parent`, asking `ts.isInterfaceDeclaration(parent)` and
`parent.name.text` (line 125).  We record exactly those two observations. -/
structure Declaration where
  parentIsInterfaceDeclaration : Bool
  parentName : String
deriving DecidableEq, Repr

/-- Whether the type answers `isIntersection()`, `isUnion()`, or neither. -/
inductive CompositeKind : Type where
  | notComposite
  | intersection
  | union
deriving DecidableEq, Repr

/-- Shallow embedding of a `ts.Type` restricted to the queries
`collectToStringCertainty` performs:
* `toStringDecls`: `none` models `getPropertyOfType(type, 'toString')`
  returning `undefined` (or the symbol's `getDeclarations()` returning
  `undefined`); `some ds` models a resolved declaration list `ds`;
* `callSignatures`: the length of `type.getCallSignatures()`;
* `isBoolean` / `isBooleanLiteral`: the `ts.TypeFlags.Boolean` and
  `ts.TypeFlags.BooleanLiteral` flag tests;
* `name`: `util.getTypeName(checker, type)`;
* `compositeKind` / `constituents`: `isIntersection()` / `isUnion()` and
  `type.types`. -/
inductive TsType : Type where
  | mk (toStringDecls : Option (List Declaration))
       (callSignatures : Nat)
       (isBoolean : Bool)
       (isBooleanLiteral : Bool)
       (name : String)
       (compositeKind : CompositeKind)
       (constituents : List TsType)
deriving Repr

def TsType.toStringDecls : TsType → Option (List Declaration)
  | .mk d _ _ _ _ _ _ => d

def TsType.callSignatures : TsType → Nat
  | .mk _ c _ _ _ _ _ => c

def TsType.isBoolean : TsType → Bool
  | .mk _ _ b _ _ _ _ => b

def TsType.isBooleanLiteral : TsType → Bool
  | .mk _ _ _ b _ _ _ => b

def TsType.name : TsType → String
  | .mk _ _ _ _ n _ _ => n

def TsType.compositeKind : TsType → CompositeKind
  | .mk _ _ _ _ _ k _ => k

/-- `type.types` of a union or intersection type. -/
def TsType.types : TsType → List TsType
  | .mk _ _ _ _ _ _ ts => ts

/-- The rule's options object (lines 14-19): `ignoredTypeNames` and
`rejectFunctions`. -/
structure Config where
  ignoredTypeNames : List String
  rejectFunctions : Bool
deriving DecidableEq, Repr

/-- The rule's `defaultOptions` (lines 55-60). -/
def defaultOptions : Config :=
  { ignoredTypeNames := ["Error", "RegExp", "URL", "URLSearchParams"]
    rejectFunctions := false }

mutual

/-- Translation of `collectToStringCertainty` (source lines 99-171).
Each `if`/`return` of the source appears in order:
1. `option.rejectFunctions && callSignatures.length > 0` → `Function`;
2. `!toString || !declarations || declarations.length === 0` → `Always`;
3. boolean / boolean-literal type flags → `Always`;
4. `ignoredTypeNames.includes(getTypeName(checker, type))` → `Always`;
5. every declaration's parent is not the `Object` interface declaration →
   `Always`;
6. intersection: any constituent `Always` → `Always`, else `Never`;
7. not a union → `Never`;
8. union: the `allSubtypesUseful` / `someSubtypeUseful` flag loop. -/
def collectToStringCertainty (cfg : Config) : TsType → Usefulness
  | .mk toStringDecls callSignatures isBoolean isBooleanLiteral name compositeKind constituents =>
    if cfg.rejectFunctions && decide (callSignatures > 0) then
      Usefulness.Function
    else
      match toStringDecls with
      | none => Usefulness.Always
      | some declarations =>
        if declarations.length = 0 then
          Usefulness.Always
        else if isBoolean || isBooleanLiteral then
          Usefulness.Always
        else if name ∈ cfg.ignoredTypeNames then
          Usefulness.Always
        else if declarations.all
            (fun d => !d.parentIsInterfaceDeclaration || decide (d.parentName ≠ "Object")) then
          Usefulness.Always
        else if compositeKind = CompositeKind.intersection then
          if (collectList cfg constituents).any (fun v => decide (v = Usefulness.Always)) then
            Usefulness.Always
          else
            Usefulness.Never
        else if compositeKind ≠ CompositeKind.union then
          Usefulness.Never
        else
          let verdicts := collectList cfg constituents
          let allSubtypesUseful := verdicts.all (fun v => decide (v = Usefulness.Always))
          let someSubtypeUseful := verdicts.any (fun v => decide (v ≠ Usefulness.Never))
          if allSubtypesUseful && someSubtypeUseful then
            Usefulness.Always
          else if someSubtypeUseful then
            Usefulness.Sometimes
          else
            Usefulness.Never

/-- The recursive sweep `for (const subType of type.types) collectToStringCertainty(subType)`
(lines 132-138 and 150-160), gathered as the list of constituent verdicts. -/
def collectList (cfg : Config) : List TsType → List Usefulness
  | [] => []
  | t :: ts => collectToStringCertainty cfg t :: collectList cfg ts

end

/-! ### Helper lemmas -/

/-- The constituent sweep is the map of the classifier over the constituent list. -/
theorem collectList_eq_map (cfg : Config) (l : List TsType) :
    collectList cfg l = l.map (collectToStringCertainty cfg) := by
  induction l with
  | nil => rfl
  | cons t ts ih => simp [collectList, ih]

/-- When rule 1 does not fire, the guard of the first `if` is `false`. -/
theorem rule1_guard_false {cfg : Config} {n : Nat}
    (h1 : cfg.rejectFunctions = false ∨ n = 0) :
    (cfg.rejectFunctions && decide (n > 0)) = false := by
  rcases h1 with h | h <;> simp [h]

/-- When at least one declaration's parent is the `Object` interface
declaration, the `declarations.every(...)` guard of rule 5 is `false`. -/
theorem rule5_guard_false {ds : List Declaration}
    (h5 : ∃ d ∈ ds, d.parentIsInterfaceDeclaration = true ∧ d.parentName = "Object") :
    (ds.all fun d => !d.parentIsInterfaceDeclaration || decide (d.parentName ≠ "Object")) =
      false := by
  obtain ⟨d, hd, hpi, hpn⟩ := h5
  rw [Bool.eq_false_iff]
  intro hall
  have hcontra := List.all_eq_true.mp hall d hd
  rw [hpi, hpn] at hcontra
  simp at hcontra

/-- A type that falls through rules 1-5 and is an intersection returns the
intersection merge of its constituents' verdicts. -/
theorem collect_intersection_eq (cfg : Config) (ds : List Declaration) (n : Nat)
    (nm : String) (cs : List TsType)
    (h1 : cfg.rejectFunctions = false ∨ n = 0)
    (hn : nm ∉ cfg.ignoredTypeNames)
    (h5 : ∃ d ∈ ds, d.parentIsInterfaceDeclaration = true ∧ d.parentName = "Object") :
    collectToStringCertainty cfg (.mk (some ds) n false false nm .intersection cs) =
      if (cs.map (collectToStringCertainty cfg)).any
          (fun v => decide (v = Usefulness.Always)) then
        Usefulness.Always
      else Usefulness.Never := by
  have hlen : ds.length ≠ 0 := by
    obtain ⟨d, hd, _⟩ := h5
    exact Nat.pos_iff_ne_zero.mp (List.length_pos.mpr (List.ne_nil_of_mem hd))
  simp only [collectToStringCertainty, rule1_guard_false h1, rule5_guard_false h5,
    Bool.false_eq_true, Bool.or_self, if_false]
  rw [if_neg hlen, if_neg hn]
  simp only [if_true, collectList_eq_map]

/-- A type that falls through rules 1-5 and is a union returns the union merge
of its constituents' verdicts (the `allSubtypesUseful` / `someSubtypeUseful`
flag loop). -/
theorem collect_union_eq (cfg : Config) (ds : List Declaration) (n : Nat)
    (nm : String) (cs : List TsType)
    (h1 : cfg.rejectFunctions = false ∨ n = 0)
    (hn : nm ∉ cfg.ignoredTypeNames)
    (h5 : ∃ d ∈ ds, d.parentIsInterfaceDeclaration = true ∧ d.parentName = "Object") :
    collectToStringCertainty cfg (.mk (some ds) n false false nm .union cs) =
      if ((cs.map (collectToStringCertainty cfg)).all
            (fun v => decide (v = Usefulness.Always)) &&
          (cs.map (collectToStringCertainty cfg)).any
            (fun v => decide (v ≠ Usefulness.Never))) then
        Usefulness.Always
      else if (cs.map (collectToStringCertainty cfg)).any
          (fun v => decide (v ≠ Usefulness.Never)) then
        Usefulness.Sometimes
      else Usefulness.Never := by
  have hlen : ds.length ≠ 0 := by
    obtain ⟨d, hd, _⟩ := h5
    exact Nat.pos_iff_ne_zero.mp (List.length_pos.mpr (List.ne_nil_of_mem hd))
  simp only [collectToStringCertainty, rule1_guard_false h1, rule5_guard_false h5,
    Bool.false_eq_true, Bool.or_self, if_false]
  rw [if_neg hlen, if_neg hn]
  rw [if_neg (by decide : ¬(CompositeKind.union = CompositeKind.intersection))]
  rw [if_neg (by decide : ¬(CompositeKind.union ≠ CompositeKind.union))]
  simp only [collectList_eq_map]

/-- A type that falls through rules 1-5 and is neither a union nor an
intersection returns `Never`. -/
theorem collect_notComposite_eq (cfg : Config) (ds : List Declaration) (n : Nat)
    (nm : String) (cs : List TsType)
    (h1 : cfg.rejectFunctions = false ∨ n = 0)
    (hn : nm ∉ cfg.ignoredTypeNames)
    (h5 : ∃ d ∈ ds, d.parentIsInterfaceDeclaration = true ∧ d.parentName = "Object") :
    collectToStringCertainty cfg (.mk (some ds) n false false nm .notComposite cs) =
      Usefulness.Never := by
  have hlen : ds.length ≠ 0 := by
    obtain ⟨d, hd, _⟩ := h5
    exact Nat.pos_iff_ne_zero.mp (List.length_pos.mpr (List.ne_nil_of_mem hd))
  simp only [collectToStringCertainty, rule1_guard_false h1, rule5_guard_false h5,
    Bool.false_eq_true, Bool.or_self, if_false]
  rw [if_neg hlen, if_neg hn]
  rw [if_neg (by decide : ¬(CompositeKind.notComposite = CompositeKind.intersection))]
  rw [if_pos (by decide : CompositeKind.notComposite ≠ CompositeKind.union)]

/-- The `any` guard of the intersection loop, in terms of constituents. -/
theorem any_always_iff (cfg : Config) (cs : List TsType) :
    ((cs.map (collectToStringCertainty cfg)).any
        (fun v => decide (v = Usefulness.Always)) = true) ↔
      ∃ s ∈ cs, collectToStringCertainty cfg s = Usefulness.Always := by
  simp [List.any_eq_true]

/-- The `someSubtypeUseful` flag of the union loop, in terms of constituents. -/
theorem any_not_never_iff (cfg : Config) (cs : List TsType) :
    ((cs.map (collectToStringCertainty cfg)).any
        (fun v => decide (v ≠ Usefulness.Never)) = true) ↔
      ∃ s ∈ cs, collectToStringCertainty cfg s ≠ Usefulness.Never := by
  simp [List.any_eq_true]

/-- The `allSubtypesUseful` flag of the union loop, in terms of constituents. -/
theorem all_always_iff (cfg : Config) (cs : List TsType) :
    ((cs.map (collectToStringCertainty cfg)).all
        (fun v => decide (v = Usefulness.Always)) = true) ↔
      ∀ s ∈ cs, collectToStringCertainty cfg s = Usefulness.Always := by
  simp [List.all_eq_true]

/-! ### Theorems for the claims -/

/-- C10.  Implicit default configuration: the rule's `defaultOptions` are
exactly `ignoredTypeNames = ['Error', 'RegExp', 'URL', 'URLSearchParams']`
and `rejectFunctions = false`. -/
theorem default_configuration :
    defaultOptions.ignoredTypeNames = ["Error", "RegExp", "URL", "URLSearchParams"] ∧
      defaultOptions.rejectFunctions = false :=
  ⟨rfl, rfl⟩

/-- C2.  Function-rejection precedence: with `rejectFunctions = true`, any type
with at least one call signature classifies as `Function`, regardless of every
other field of the type — in particular even when its name is in
`ignoredTypeNames`. -/
theorem function_rejection_precedence (cfg : Config) (t : TsType)
    (hrf : cfg.rejectFunctions = true) (hcs : 0 < t.callSignatures) :
    collectToStringCertainty cfg t = Usefulness.Function := by
  cases t with
  | mk d n b bl nm k cs =>
    simp only [TsType.callSignatures] at hcs
    simp [collectToStringCertainty, hrf, hcs]

/-- Witness for C2, at a type whose name is in the override list. -/
theorem function_rejection_precedence_witness :
    collectToStringCertainty ⟨["Fn"], true⟩
        (.mk none 2 false false "Fn" .notComposite []) = Usefulness.Function :=
  function_rejection_precedence ⟨["Fn"], true⟩
    (.mk none 2 false false "Fn" .notComposite []) rfl (by decide)

/-- C4.  Absence-of-evidence rule: if the function-rejection rule does not fire
and the type has no `toString` member (or that member has no declarations),
the verdict is `Always`, not `Never`. -/
theorem absence_of_evidence (cfg : Config) (t : TsType)
    (h1 : cfg.rejectFunctions = false ∨ t.callSignatures = 0)
    (h2 : t.toStringDecls = none ∨ t.toStringDecls = some []) :
    collectToStringCertainty cfg t = Usefulness.Always := by
  cases t with
  | mk d n b bl nm k cs =>
    simp only [TsType.callSignatures] at h1
    simp only [TsType.toStringDecls] at h2
    rcases h2 with h | h <;>
      simp [collectToStringCertainty, rule1_guard_false h1, h]

/-- Witness for C4. -/
theorem absence_of_evidence_witness :
    collectToStringCertainty ⟨[], false⟩
        (.mk none 0 false false "x" .notComposite []) = Usefulness.Always :=
  absence_of_evidence ⟨[], false⟩ (.mk none 0 false false "x" .notComposite [])
    (Or.inl rfl) (Or.inl rfl)

/-- C6.  Boolean carve-out: a boolean scalar or boolean-literal type with no
call signatures classifies as `Always` under every configuration. -/
theorem boolean_carve_out (cfg : Config) (t : TsType)
    (hb : t.isBoolean = true ∨ t.isBooleanLiteral = true)
    (hcs : t.callSignatures = 0) :
    collectToStringCertainty cfg t = Usefulness.Always := by
  cases t with
  | mk d n b bl nm k cs =>
    simp only [TsType.isBoolean, TsType.isBooleanLiteral] at hb
    simp only [TsType.callSignatures] at hcs
    cases d with
    | none => simp [collectToStringCertainty, hcs]
    | some ds => rcases hb with h | h <;> simp [collectToStringCertainty, hcs, h]

/-- Witness for C6, with `rejectFunctions = true`, an empty override set, and a
`toString` declaration sitting on the `Object` interface (so without the
carve-out the verdict would have been `Never`). -/
theorem boolean_carve_out_witness :
    collectToStringCertainty ⟨[], true⟩
        (.mk (some [⟨true, "Object"⟩]) 0 true false "boolean" .notComposite []) =
      Usefulness.Always :=
  boolean_carve_out ⟨[], true⟩
    (.mk (some [⟨true, "Object"⟩]) 0 true false "boolean" .notComposite [])
    (Or.inl rfl) rfl

/-- C7.  Override-list rule: a type whose canonical name is in
`ignoredTypeNames` classifies as `Always`, provided the function-rejection
rule does not fire. -/
theorem override_list_rule (cfg : Config) (t : TsType)
    (hn : t.name ∈ cfg.ignoredTypeNames)
    (h1 : cfg.rejectFunctions = false ∨ t.callSignatures = 0) :
    collectToStringCertainty cfg t = Usefulness.Always := by
  cases t with
  | mk d n b bl nm k cs =>
    simp only [TsType.name] at hn
    simp only [TsType.callSignatures] at h1
    cases d with
    | none => simp [collectToStringCertainty, rule1_guard_false h1]
    | some ds => simp [collectToStringCertainty, rule1_guard_false h1, hn]

/-- Witness for C7: the default configuration and a type named `Error` whose
only `toString` declaration comes from the `Object` interface. -/
theorem override_list_rule_witness :
    collectToStringCertainty defaultOptions
        (.mk (some [⟨true, "Object"⟩]) 0 false false "Error" .notComposite []) =
      Usefulness.Always :=
  override_list_rule defaultOptions
    (.mk (some [⟨true, "Object"⟩]) 0 false false "Error" .notComposite [])
    (by decide) (Or.inl rfl)

/-- C5.  Base-stringifier rule and default: a non-composite, non-boolean type
with a nonempty `toString` declaration list, name not in the override set, and
no function-rejection firing, classifies `Always` when no declaration's parent
is the `Object` interface declaration, and `Never` when at least one
declaration's parent is the `Object` interface declaration. -/
theorem base_stringifier_rule (cfg : Config) (ds : List Declaration) (n : Nat)
    (nm : String) (cs : List TsType)
    (hne : ds ≠ [])
    (h1 : cfg.rejectFunctions = false ∨ n = 0)
    (hn : nm ∉ cfg.ignoredTypeNames) :
    ((∀ d ∈ ds, ¬(d.parentIsInterfaceDeclaration = true ∧ d.parentName = "Object")) →
        collectToStringCertainty cfg (.mk (some ds) n false false nm .notComposite cs) =
          Usefulness.Always) ∧
    ((∃ d ∈ ds, d.parentIsInterfaceDeclaration = true ∧ d.parentName = "Object") →
        collectToStringCertainty cfg (.mk (some ds) n false false nm .notComposite cs) =
          Usefulness.Never) := by
  constructor
  · intro hall
    have hguard : (ds.all fun d =>
        !d.parentIsInterfaceDeclaration || decide (d.parentName ≠ "Object")) = true := by
      rw [List.all_eq_true]
      intro d hd
      cases hpi : d.parentIsInterfaceDeclaration with
      | false => simp
      | true =>
        have hpn : d.parentName ≠ "Object" := fun hc => hall d hd ⟨hpi, hc⟩
        simp [hpn]
    have hlen : ds.length ≠ 0 :=
      Nat.pos_iff_ne_zero.mp (List.length_pos.mpr hne)
    simp only [collectToStringCertainty, rule1_guard_false h1, hguard,
      Bool.false_eq_true, Bool.or_self, if_false, if_true]
    rw [if_neg hlen, if_neg hn]
  · intro h5
    exact collect_notComposite_eq cfg ds n nm cs h1 hn h5

/-- Witness for C5: one instance of each branch. -/
theorem base_stringifier_rule_witness :
    collectToStringCertainty ⟨[], false⟩
        (.mk (some [⟨false, "A"⟩]) 0 false false "A" .notComposite []) =
      Usefulness.Always ∧
    collectToStringCertainty ⟨[], false⟩
        (.mk (some [⟨true, "Object"⟩]) 0 false false "B" .notComposite []) =
      Usefulness.Never :=
  ⟨(base_stringifier_rule ⟨[], false⟩ [⟨false, "A"⟩] 0 "A" [] (by decide)
      (Or.inl rfl) (by decide)).1 (by decide),
   (base_stringifier_rule ⟨[], false⟩ [⟨true, "Object"⟩] 0 "B" [] (by decide)
      (Or.inl rfl) (by decide)).2 ⟨⟨true, "Object"⟩, by decide, rfl, rfl⟩⟩

/-- C3.  Intersection merge law: an intersection that reaches the
composite-decomposition step classifies `Always` when some constituent's
recursive verdict is `Always` and `Never` otherwise; it is never `Sometimes`. -/
theorem intersection_merge_law (cfg : Config) (ds : List Declaration) (n : Nat)
    (nm : String) (cs : List TsType)
    (h1 : cfg.rejectFunctions = false ∨ n = 0)
    (hn : nm ∉ cfg.ignoredTypeNames)
    (h5 : ∃ d ∈ ds, d.parentIsInterfaceDeclaration = true ∧ d.parentName = "Object") :
    ((∃ s ∈ cs, collectToStringCertainty cfg s = Usefulness.Always) →
        collectToStringCertainty cfg (.mk (some ds) n false false nm .intersection cs) =
          Usefulness.Always) ∧
    ((∀ s ∈ cs, collectToStringCertainty cfg s ≠ Usefulness.Always) →
        collectToStringCertainty cfg (.mk (some ds) n false false nm .intersection cs) =
          Usefulness.Never) ∧
    collectToStringCertainty cfg (.mk (some ds) n false false nm .intersection cs) ≠
      Usefulness.Sometimes := by
  rw [collect_intersection_eq cfg ds n nm cs h1 hn h5]
  refine ⟨fun h => ?_, fun h => ?_, ?_⟩
  · rw [if_pos ((any_always_iff cfg cs).mpr h)]
  · rw [if_neg]
    intro hc
    obtain ⟨s, hs, ha⟩ := (any_always_iff cfg cs).mp hc
    exact h s hs ha
  · by_cases hc : ((cs.map (collectToStringCertainty cfg)).any
        (fun v => decide (v = Usefulness.Always))) = true
    · rw [if_pos hc]
      exact fun h => Usefulness.noConfusion h
    · rw [if_neg hc]
      exact fun h => Usefulness.noConfusion h

/-- Witness for C3: an intersection of a `Never` constituent and an `Always`
constituent is `Always`. -/
theorem intersection_merge_law_witness :
    collectToStringCertainty ⟨[], false⟩
        (.mk (some [⟨true, "Object"⟩]) 0 false false "I" .intersection
          [.mk (some [⟨true, "Object"⟩]) 0 false false "B" .notComposite [],
           .mk none 0 false false "A" .notComposite []]) =
      Usefulness.Always :=
  (intersection_merge_law ⟨[], false⟩ [⟨true, "Object"⟩] 0 "I"
      [.mk (some [⟨true, "Object"⟩]) 0 false false "B" .notComposite [],
       .mk none 0 false false "A" .notComposite []]
      (Or.inl rfl) (by decide) ⟨⟨true, "Object"⟩, by decide, rfl, rfl⟩).1
    ⟨.mk none 0 false false "A" .notComposite [],
     List.mem_cons_of_mem _ (List.mem_cons_self _ _), rfl⟩

/-- Configuration used by the union-merge counterexample: empty override list
and `rejectFunctions` enabled. -/
def cexCfg : Config := ⟨[], true⟩

/-- A callable constituent (one call signature): with `rejectFunctions` on,
its recursive verdict is `Function`. -/
def cexFn : TsType := .mk none 1 false false "F" .notComposite []

/-- A constituent relying on the `Object` base stringifier: verdict `Never`. -/
def cexNever : TsType := .mk (some [⟨true, "Object"⟩]) 0 false false "N" .notComposite []

/-- A union type that reaches the composite-decomposition step (no call
signatures of its own, a `toString` declaration whose parent is the `Object`
interface declaration, name not in the override list) whose constituents'
recursive verdicts are `Function` and `Never` — none is `Always`. -/
def cexUnion : TsType :=
  .mk (some [⟨true, "Object"⟩]) 0 false false "U" .union [cexFn, cexNever]

/-- C1 (counterexample).  The claim's bottom branch says that a union reaching
the composite step with no `Always` constituent gets verdict `Never`; but on
`cexUnion` — which reaches the composite step, and whose constituent verdicts
are `Function` and `Never`, so none is `Always` — the classifier returns
`Sometimes`, because the `someSubtypeUseful` flag of the source's loop is set
by any verdict other than `Never`, not only by `Always`. -/
theorem union_merge_law_counterexample :
    (cexCfg.rejectFunctions && decide (cexUnion.callSignatures > 0)) = false ∧
    cexUnion.compositeKind = CompositeKind.union ∧
    cexUnion.name ∉ cexCfg.ignoredTypeNames ∧
    collectToStringCertainty cexCfg cexFn = Usefulness.Function ∧
    collectToStringCertainty cexCfg cexNever = Usefulness.Never ∧
    (∀ s ∈ cexUnion.types, collectToStringCertainty cexCfg s ≠ Usefulness.Always) ∧
    collectToStringCertainty cexCfg cexUnion = Usefulness.Sometimes := by
  decide

/-- C1 (amended).  Union merge law: for a union that reaches the
composite-decomposition step, with `v1..vn` the constituents' recursive
verdicts: if all `vi` are `Always` (and the union is nonempty) the verdict is
`Always`; if some but not all `vi` are `Always` the verdict is `Sometimes`;
if no `vi` is `Always`, the verdict is `Never` when every `vi` is `Never` and
`Sometimes` when some `vi` is not `Never` (a `Sometimes` or `Function`
constituent verdict prevents `Never`). -/
theorem union_merge_law_amended (cfg : Config) (ds : List Declaration) (n : Nat)
    (nm : String) (cs : List TsType)
    (h1 : cfg.rejectFunctions = false ∨ n = 0)
    (hn : nm ∉ cfg.ignoredTypeNames)
    (h5 : ∃ d ∈ ds, d.parentIsInterfaceDeclaration = true ∧ d.parentName = "Object") :
    ((cs ≠ [] ∧ ∀ s ∈ cs, collectToStringCertainty cfg s = Usefulness.Always) →
        collectToStringCertainty cfg (.mk (some ds) n false false nm .union cs) =
          Usefulness.Always) ∧
    (((∃ s ∈ cs, collectToStringCertainty cfg s = Usefulness.Always) ∧
        ¬∀ s ∈ cs, collectToStringCertainty cfg s = Usefulness.Always) →
        collectToStringCertainty cfg (.mk (some ds) n false false nm .union cs) =
          Usefulness.Sometimes) ∧
    ((∀ s ∈ cs, collectToStringCertainty cfg s ≠ Usefulness.Always) →
        (((∀ s ∈ cs, collectToStringCertainty cfg s = Usefulness.Never) →
            collectToStringCertainty cfg (.mk (some ds) n false false nm .union cs) =
              Usefulness.Never) ∧
          ((∃ s ∈ cs, collectToStringCertainty cfg s ≠ Usefulness.Never) →
            collectToStringCertainty cfg (.mk (some ds) n false false nm .union cs) =
              Usefulness.Sometimes))) := by
  rw [collect_union_eq cfg ds n nm cs h1 hn h5]
  refine ⟨?_, ?_, fun hno => ⟨?_, ?_⟩⟩
  · rintro ⟨hne, hall⟩
    obtain ⟨s, hs⟩ := List.exists_mem_of_ne_nil cs hne
    have hA : ((cs.map (collectToStringCertainty cfg)).all
        (fun v => decide (v = Usefulness.Always))) = true :=
      (all_always_iff cfg cs).mpr hall
    have hN : ((cs.map (collectToStringCertainty cfg)).any
        (fun v => decide (v ≠ Usefulness.Never))) = true :=
      (any_not_never_iff cfg cs).mpr
        ⟨s, hs, by rw [hall s hs]; exact fun h => Usefulness.noConfusion h⟩
    rw [hA, hN]
    rfl
  · rintro ⟨⟨s, hs, hsA⟩, hnall⟩
    have hA : ((cs.map (collectToStringCertainty cfg)).all
        (fun v => decide (v = Usefulness.Always))) = false :=
      Bool.eq_false_iff.mpr fun hc => hnall ((all_always_iff cfg cs).mp hc)
    have hN : ((cs.map (collectToStringCertainty cfg)).any
        (fun v => decide (v ≠ Usefulness.Never))) = true :=
      (any_not_never_iff cfg cs).mpr
        ⟨s, hs, by rw [hsA]; exact fun h => Usefulness.noConfusion h⟩
    rw [hA, hN]
    rfl
  · intro hnever
    have hN : ((cs.map (collectToStringCertainty cfg)).any
        (fun v => decide (v ≠ Usefulness.Never))) = false :=
      Bool.eq_false_iff.mpr fun hc => by
        obtain ⟨s, hs, hsN⟩ := (any_not_never_iff cfg cs).mp hc
        exact hsN (hnever s hs)
    rw [hN, Bool.and_false]
    rfl
  · rintro ⟨s, hs, hsN⟩
    have hA : ((cs.map (collectToStringCertainty cfg)).all
        (fun v => decide (v = Usefulness.Always))) = false :=
      Bool.eq_false_iff.mpr fun hc => hno s hs ((all_always_iff cfg cs).mp hc s hs)
    have hN : ((cs.map (collectToStringCertainty cfg)).any
        (fun v => decide (v ≠ Usefulness.Never))) = true :=
      (any_not_never_iff cfg cs).mpr ⟨s, hs, hsN⟩
    rw [hA, hN]
    rfl

/-- Witness for the amended C1: a union of an `Always` constituent and a
`Never` constituent is `Sometimes`. -/
theorem union_merge_law_amended_witness :
    collectToStringCertainty ⟨[], false⟩
        (.mk (some [⟨true, "Object"⟩]) 0 false false "U" .union
          [.mk none 0 false false "A" .notComposite [],
           .mk (some [⟨true, "Object"⟩]) 0 false false "B" .notComposite []]) =
      Usefulness.Sometimes :=
  (union_merge_law_amended ⟨[], false⟩ [⟨true, "Object"⟩] 0 "U"
      [.mk none 0 false false "A" .notComposite [],
       .mk (some [⟨true, "Object"⟩]) 0 false false "B" .notComposite []]
      (Or.inl rfl) (by decide) ⟨⟨true, "Object"⟩, by decide, rfl, rfl⟩).2.1
    ⟨⟨.mk none 0 false false "A" .notComposite [], List.mem_cons_self _ _, rfl⟩,
     by decide⟩

/-- Rule-1 guard, phrased from the negated conjunctive form. -/
theorem rule1_guard_false_of_not {cfg : Config} {n : Nat}
    (h : ¬(cfg.rejectFunctions = true ∧ 0 < n)) :
    (cfg.rejectFunctions && decide (n > 0)) = false := by
  rcases Bool.eq_false_or_eq_true cfg.rejectFunctions with hb | hb
  · have hn : ¬0 < n := fun hc => h ⟨hb, hc⟩
    simp [hb, hn]
  · simp [hb]

/-- C8.  `Function` never results from composite merging: the classifier
returns `Function` only when the top-level function-rejection rule fires on
the type itself; whenever that rule does not fire — in particular whenever
the composite-decomposition step is reached on a union or an intersection —
the verdict is in {`Always`, `Never`, `Sometimes`}. -/
theorem function_only_from_rejection_rule (cfg : Config) (t : TsType) :
    (collectToStringCertainty cfg t = Usefulness.Function →
      cfg.rejectFunctions = true ∧ 0 < t.callSignatures) ∧
    (¬(cfg.rejectFunctions = true ∧ 0 < t.callSignatures) →
      collectToStringCertainty cfg t = Usefulness.Always ∨
      collectToStringCertainty cfg t = Usefulness.Never ∨
      collectToStringCertainty cfg t = Usefulness.Sometimes) := by
  cases t with
  | mk d n b bl nm k cs =>
    simp only [TsType.callSignatures]
    have key : ¬(cfg.rejectFunctions = true ∧ 0 < n) →
        collectToStringCertainty cfg (.mk d n b bl nm k cs) ≠ Usefulness.Function := by
      intro hno hF
      simp only [collectToStringCertainty] at hF
      rw [rule1_guard_false_of_not hno] at hF
      simp only [Bool.false_eq_true, if_false] at hF
      cases d with
      | none => exact Usefulness.noConfusion hF
      | some ds =>
        repeat' split at hF
        all_goals exact Usefulness.noConfusion hF
    constructor
    · intro hF
      by_contra hc
      exact key hc hF
    · intro hno
      cases hv : collectToStringCertainty cfg (.mk d n b bl nm k cs) with
      | Always => exact Or.inl rfl
      | Never => exact Or.inr (Or.inl rfl)
      | Sometimes => exact Or.inr (Or.inr rfl)
      | Function => exact absurd hv (key hno)

/-- Witness for C8: an intersection that reaches the composite step. -/
theorem function_only_from_rejection_rule_witness :
    collectToStringCertainty ⟨[], false⟩
        (.mk (some [⟨true, "Object"⟩]) 0 false false "X" .intersection
          [.mk none 1 false false "F" .notComposite []]) = Usefulness.Always ∨
    collectToStringCertainty ⟨[], false⟩
        (.mk (some [⟨true, "Object"⟩]) 0 false false "X" .intersection
          [.mk none 1 false false "F" .notComposite []]) = Usefulness.Never ∨
    collectToStringCertainty ⟨[], false⟩
        (.mk (some [⟨true, "Object"⟩]) 0 false false "X" .intersection
          [.mk none 1 false false "F" .notComposite []]) = Usefulness.Sometimes :=
  (function_only_from_rejection_rule ⟨[], false⟩
      (.mk (some [⟨true, "Object"⟩]) 0 false false "X" .intersection
        [.mk none 1 false false "F" .notComposite []])).2 (by decide)

mutual

/-- Nesting depth of a type's composite structure: 1 for the type itself plus
the largest depth among its constituents. -/
def TsType.nestingDepth : TsType → Nat
  | .mk _ _ _ _ _ _ cs => listNestingDepth cs + 1

/-- Largest nesting depth in a constituent list. -/
def listNestingDepth : List TsType → Nat
  | [] => 0
  | t :: ts => max t.nestingDepth (listNestingDepth ts)

end

mutual

/-- Fuel-indexed variant of the classifier: one unit of fuel is consumed per
recursion level into a composite's constituents, and the result is `none`
when the fuel runs out.  Except for the fuel bookkeeping the body is the same
branch-for-branch translation of `collectToStringCertainty` as above; it is
used to express the bound on the classifier's recursion depth. -/
def collectFuel (cfg : Config) : Nat → TsType → Option Usefulness
  | 0, _ => none
  | fuel + 1,
    .mk toStringDecls callSignatures isBoolean isBooleanLiteral name compositeKind constituents =>
    if cfg.rejectFunctions && decide (callSignatures > 0) then
      some Usefulness.Function
    else
      match toStringDecls with
      | none => some Usefulness.Always
      | some declarations =>
        if declarations.length = 0 then
          some Usefulness.Always
        else if isBoolean || isBooleanLiteral then
          some Usefulness.Always
        else if name ∈ cfg.ignoredTypeNames then
          some Usefulness.Always
        else if declarations.all
            (fun d => !d.parentIsInterfaceDeclaration || decide (d.parentName ≠ "Object")) then
          some Usefulness.Always
        else if compositeKind = CompositeKind.intersection then
          match collectListFuel cfg fuel constituents with
          | none => none
          | some verdicts =>
            some (if verdicts.any (fun v => decide (v = Usefulness.Always)) then
                Usefulness.Always
              else Usefulness.Never)
        else if compositeKind ≠ CompositeKind.union then
          some Usefulness.Never
        else
          match collectListFuel cfg fuel constituents with
          | none => none
          | some verdicts =>
            some (if verdicts.all (fun v => decide (v = Usefulness.Always)) &&
                verdicts.any (fun v => decide (v ≠ Usefulness.Never)) then
                Usefulness.Always
              else if verdicts.any (fun v => decide (v ≠ Usefulness.Never)) then
                Usefulness.Sometimes
              else Usefulness.Never)

/-- Fuel-indexed constituent sweep. -/
def collectListFuel (cfg : Config) : Nat → List TsType → Option (List Usefulness)
  | _, [] => some []
  | fuel, t :: ts =>
    match collectFuel cfg fuel t, collectListFuel cfg fuel ts with
    | some v, some vs => some (v :: vs)
    | _, _ => none

end

/-- Fuel equal to the nesting depth is enough: the fuel-indexed classifier
agrees with the classifier, so the recursion depth is bounded by the nesting
depth of the type's composite structure. -/
theorem collectFuel_spec (cfg : Config) :
    ∀ fuel : Nat,
      (∀ t : TsType, t.nestingDepth ≤ fuel →
        collectFuel cfg fuel t = some (collectToStringCertainty cfg t)) ∧
      (∀ cs : List TsType, listNestingDepth cs ≤ fuel →
        collectListFuel cfg fuel cs = some (collectList cfg cs)) := by
  intro fuel
  induction fuel with
  | zero =>
    constructor
    · intro t h
      exfalso
      cases t with
      | mk d n b bl nm k cs =>
        simp [TsType.nestingDepth] at h
    · intro cs h
      cases cs with
      | nil => rfl
      | cons t ts =>
        exfalso
        cases t with
        | mk d n b bl nm k cs2 =>
          simp [listNestingDepth, TsType.nestingDepth, Nat.max_le] at h
  | succ fuel ih =>
    have hA : ∀ t : TsType, t.nestingDepth ≤ fuel + 1 →
        collectFuel cfg (fuel + 1) t = some (collectToStringCertainty cfg t) := by
      intro t h
      cases t with
      | mk d n b bl nm k cs =>
        have hcs : listNestingDepth cs ≤ fuel := by
          simp only [TsType.nestingDepth] at h
          omega
        have hB := ih.2 cs hcs
        cases d with
        | none =>
          by_cases h1 : (cfg.rejectFunctions && decide (n > 0)) = true
          · simp only [collectFuel, collectToStringCertainty, if_pos h1]
          · simp only [collectFuel, collectToStringCertainty, if_neg h1]
        | some ds =>
          by_cases h1 : (cfg.rejectFunctions && decide (n > 0)) = true
          · simp only [collectFuel, collectToStringCertainty, if_pos h1]
          · simp only [collectFuel, collectToStringCertainty, if_neg h1]
            by_cases h2 : ds.length = 0
            · rw [if_pos h2, if_pos h2]
            · rw [if_neg h2, if_neg h2]
              by_cases h3 : (b || bl) = true
              · rw [if_pos h3, if_pos h3]
              · rw [if_neg h3, if_neg h3]
                by_cases h4 : nm ∈ cfg.ignoredTypeNames
                · rw [if_pos h4, if_pos h4]
                · rw [if_neg h4, if_neg h4]
                  by_cases h5 : (ds.all fun d =>
                      !d.parentIsInterfaceDeclaration || decide (d.parentName ≠ "Object")) = true
                  · rw [if_pos h5, if_pos h5]
                  · rw [if_neg h5, if_neg h5]
                    by_cases h6 : k = CompositeKind.intersection
                    · rw [if_pos h6, if_pos h6, hB]
                    · rw [if_neg h6, if_neg h6]
                      by_cases h7 : k ≠ CompositeKind.union
                      · rw [if_pos h7, if_pos h7]
                      · rw [if_neg h7, if_neg h7, hB]
    refine ⟨hA, ?_⟩
    intro cs h
    induction cs with
    | nil => rfl
    | cons t ts ihts =>
      have hmax := Nat.max_le.mp (by simpa [listNestingDepth] using h)
      have ht := hA t (Nat.le_trans hmax.1 (Nat.le_refl _))
      have hts := ihts hmax.2
      simp only [collectListFuel, collectList, ht, hts]

/-- C9.  Totality, definedness and depth bound: the classifier always returns
exactly one of the four lattice values (it is a total function, with no error
outcome in its result type), and running the fuel-indexed variant with fuel
equal to the type's composite nesting depth already reproduces it — the
recursion depth is bounded by the nesting depth of the type's own
structure. -/
theorem classifier_total_and_depth_bounded (cfg : Config) (t : TsType) :
    (collectToStringCertainty cfg t = Usefulness.Always ∨
     collectToStringCertainty cfg t = Usefulness.Never ∨
     collectToStringCertainty cfg t = Usefulness.Sometimes ∨
     collectToStringCertainty cfg t = Usefulness.Function) ∧
    (∀ fuel : Nat, t.nestingDepth ≤ fuel →
      collectFuel cfg fuel t = some (collectToStringCertainty cfg t)) := by
  constructor
  · cases hv : collectToStringCertainty cfg t with
    | Always => exact Or.inl rfl
    | Never => exact Or.inr (Or.inl rfl)
    | Sometimes => exact Or.inr (Or.inr (Or.inl rfl))
    | Function => exact Or.inr (Or.inr (Or.inr rfl))
  · intro fuel h
    exact (collectFuel_spec cfg fuel).1 t h

/-- Witness for C9: a union of nesting depth 2, evaluated with fuel 2. -/
theorem classifier_total_and_depth_bounded_witness :
    collectFuel defaultOptions 2
        (.mk (some [⟨true, "Object"⟩]) 0 false false "U" .union
          [.mk none 0 false false "A" .notComposite []]) =
      some (collectToStringCertainty defaultOptions
        (.mk (some [⟨true, "Object"⟩]) 0 false false "U" .union
          [.mk none 0 false false "A" .notComposite []])) :=
  (classifier_total_and_depth_bounded defaultOptions
      (.mk (some [⟨true, "Object"⟩]) 0 false false "U" .union
        [.mk none 0 false false "A" .notComposite []])).2 2 (by decide)

end NoBaseToString
